import Mathlib

/-!
# Verification of the rust-xdr `xdrgen` crate

Shallow embedding of the `xdrgen` code generator (`src/xdrgen/src/lib.rs`)
and, modelled from the specification, of the RFC4506 XDR binary
encode/decode rules that the generated code implements.

Bytes are modelled as natural numbers; a byte stream is a `List Nat`.
Machine integers are `Nat`/`Int` with explicit range side conditions.
-/

namespace XdrGen

/-! ## Byte-level primitives (RFC4506 layout building blocks)

Modelled from the spec: the runtime codec library (`xdr-codec`, not part of
this repository's sources) provides big-endian read/write of fixed-width
scalars; these functions reproduce that wire format. -/

/-- Decode-side error taxonomy, following the spec's error design. -/
inductive XdrErr where
  | eof
  | bounds
  | invalidDiscriminant
  | outOfFuel
  | unresolvedName
  deriving DecidableEq, Repr

/-- Big-endian 4-byte representation of a 32-bit natural. -/
def u32be (n : Nat) : List Nat :=
  [n / 16777216 % 256, n / 65536 % 256, n / 256 % 256, n % 256]

/-- Big-endian 8-byte representation of a 64-bit natural. -/
def u64be (n : Nat) : List Nat :=
  u32be (n / 4294967296) ++ u32be (n % 4294967296)

/-- Big-endian 16-byte representation of a 128-bit natural. -/
def u128be (n : Nat) : List Nat :=
  u64be (n / 18446744073709551616) ++ u64be (n % 18446744073709551616)

/-- Read a big-endian 4-byte unsigned integer from the stream. -/
def readU32 : List Nat → Except XdrErr (Nat × List Nat)
  | b0 :: b1 :: b2 :: b3 :: rest =>
      .ok (((b0 * 256 + b1) * 256 + b2) * 256 + b3, rest)
  | _ => .error .eof

/-- Read a big-endian 8-byte unsigned integer from the stream. -/
def readU64 (s : List Nat) : Except XdrErr (Nat × List Nat) :=
  match readU32 s with
  | .error e => .error e
  | .ok (hi, s) =>
    match readU32 s with
    | .error e => .error e
    | .ok (lo, s) => .ok (hi * 4294967296 + lo, s)

/-- Read a big-endian 16-byte unsigned integer from the stream. -/
def readU128 (s : List Nat) : Except XdrErr (Nat × List Nat) :=
  match readU64 s with
  | .error e => .error e
  | .ok (hi, s) =>
    match readU64 s with
    | .error e => .error e
    | .ok (lo, s) => .ok (hi * 18446744073709551616 + lo, s)

/-- Two's-complement 4-byte big-endian encoding of a signed 32-bit integer. -/
def i32be (i : Int) : List Nat := u32be (i % 4294967296).toNat

/-- Two's-complement 8-byte big-endian encoding of a signed 64-bit integer. -/
def i64be (i : Int) : List Nat := u64be (i % 18446744073709551616).toNat

/-- Read a signed 32-bit big-endian integer (two's complement). -/
def readI32 (s : List Nat) : Except XdrErr (Int × List Nat) :=
  match readU32 s with
  | .error e => .error e
  | .ok (n, s) => .ok (if n < 2147483648 then (n : Int) else (n : Int) - 4294967296, s)

/-- Read a signed 64-bit big-endian integer (two's complement). -/
def readI64 (s : List Nat) : Except XdrErr (Int × List Nat) :=
  match readU64 s with
  | .error e => .error e
  | .ok (n, s) =>
    .ok (if n < 9223372036854775808 then (n : Int) else (n : Int) - 18446744073709551616, s)

/-- Zero-padding length bringing `n` bytes up to a multiple of 4. -/
def padLen (n : Nat) : Nat := (4 - n % 4) % 4

/-- Read `k` raw bytes from the stream. -/
def readBytes (k : Nat) (s : List Nat) : Except XdrErr (List Nat × List Nat) :=
  if k ≤ s.length then .ok (s.take k, s.drop k) else .error .eof

theorem readU32_u32be_append (n : Nat) (h : n < 4294967296) (rest : List Nat) :
    readU32 (u32be n ++ rest) = .ok (n, rest) := by
  simp only [u32be, readU32, List.cons_append, List.nil_append]
  congr 1
  congr 1
  omega

theorem readU64_u64be_append (n : Nat) (h : n < 18446744073709551616) (rest : List Nat) :
    readU64 (u64be n ++ rest) = .ok (n, rest) := by
  have hhi : n / 4294967296 < 4294967296 := by omega
  have hlo : n % 4294967296 < 4294967296 := by omega
  have hn : n / 4294967296 * 4294967296 + n % 4294967296 = n := by omega
  simp only [u64be, readU64, List.append_assoc,
    readU32_u32be_append _ hhi, readU32_u32be_append _ hlo, hn]

theorem readU128_u128be_append (n : Nat)
    (h : n < 340282366920938463463374607431768211456) (rest : List Nat) :
    readU128 (u128be n ++ rest) = .ok (n, rest) := by
  have hhi : n / 18446744073709551616 < 18446744073709551616 := by omega
  have hlo : n % 18446744073709551616 < 18446744073709551616 := by omega
  have hn : n / 18446744073709551616 * 18446744073709551616 + n % 18446744073709551616 = n := by
    omega
  simp only [u128be, readU128, List.append_assoc,
    readU64_u64be_append _ hhi, readU64_u64be_append _ hlo, hn]

theorem readI32_i32be_append (i : Int) (h1 : -2147483648 ≤ i) (h2 : i < 2147483648)
    (rest : List Nat) : readI32 (i32be i ++ rest) = .ok (i, rest) := by
  have hn : (i % 4294967296).toNat < 4294967296 := by omega
  have hv : (if (i % 4294967296).toNat < 2147483648 then ((i % 4294967296).toNat : Int)
      else ((i % 4294967296).toNat : Int) - 4294967296) = i := by
    split <;> omega
  simp only [i32be, readI32, readU32_u32be_append _ hn, hv]

theorem readI64_i64be_append (i : Int) (h1 : -9223372036854775808 ≤ i)
    (h2 : i < 9223372036854775808) (rest : List Nat) :
    readI64 (i64be i ++ rest) = .ok (i, rest) := by
  have hn : (i % 18446744073709551616).toNat < 18446744073709551616 := by omega
  have hv : (if (i % 18446744073709551616).toNat < 9223372036854775808
      then ((i % 18446744073709551616).toNat : Int)
      else ((i % 18446744073709551616).toNat : Int) - 18446744073709551616) = i := by
    split <;> omega
  simp only [i64be, readI64, readU64_u64be_append _ hn, hv]

theorem readBytes_append (bs rest : List Nat) :
    readBytes bs.length (bs ++ rest) = .ok (bs, rest) := by
  simp [readBytes]

theorem readBytes_len_append (k : Nat) (bs rest : List Nat) (h : bs.length = k) :
    readBytes k (bs ++ rest) = .ok (bs, rest) := h ▸ readBytes_append bs rest

/-! ## The XDR type model

Modelled from the spec: the canonical `TypeExpr` variant set of the Type
Model (spec §3), whose Rust definition lives in the crate's `spec` module,
which is not among the repository's source files. -/

/-- The canonical XDR type shape (spec §3 "TypeExpr"). -/
inductive TypeExpr where
  | tint
  | tuint
  | thyper
  | tuhyper
  | tfloat
  | tdouble
  | tquadruple
  | tbool
  | tvoid
  | topaqueFixed (len : Nat)
  | topaqueVar (bound : Option Nat)
  | tstring (bound : Option Nat)
  | tarrayFixed (elem : TypeExpr) (len : Nat)
  | tarrayVar (elem : TypeExpr) (bound : Option Nat)
  | toption (referent : TypeExpr)
  | tstruct (fields : List (String × TypeExpr))
  | tenum (variants : List (String × Int))
  | tunion (disc : TypeExpr) (cases : List (List Int × String × TypeExpr))
      (dflt : Option (String × TypeExpr))
  | tnamed (name : String)
  deriving Repr

/-- Runtime values of XDR types.  Floating-point values are carried as their
raw big-endian bit patterns, since the codec moves bits, not numerics. -/
inductive Value where
  | vint (i : Int)
  | vuint (n : Nat)
  | vhyper (i : Int)
  | vuhyper (n : Nat)
  | vfloat (bits : Nat)
  | vdouble (bits : Nat)
  | vquadruple (bits : Nat)
  | vbool (b : Bool)
  | vvoid
  | vbytes (bytes : List Nat)
  | vstring (bytes : List Nat)
  | varray (elems : List Value)
  | voption (val : Option Value)
  | vstruct (fields : List Value)
  | venum (val : Int)
  | vunion (disc : Int) (payload : Value)
  deriving Repr

/-- A resolved symbol table mapping type names to their definitions, for the
`tnamed` references (spec §3 "Named ... resolved by the Symbol Table"). -/
abbrev Env : Type := List (String × TypeExpr)

/-- Union arm selection: the first case whose label set contains the
discriminant, else the default arm if present (spec §4.3 union rule). -/
def selectArm (d : Int) : List (List Int × String × TypeExpr) →
    Option (String × TypeExpr) → Option TypeExpr
  | [], dflt => dflt.map (fun a => a.2)
  | (labels, _, ty) :: rest, dflt =>
      if labels.contains d then some ty else selectArm d rest dflt

/-- Does a variable-length payload satisfy its declared maximum bound? -/
def boundOk : Option Nat → Nat → Bool
  | none, _ => true
  | some m, len => decide (len ≤ m)

/-- All stream entries are genuine bytes. -/
def allBytes (bs : List Nat) : Bool := bs.all (fun b => b < 256)

/-- Well-formedness of a union discriminant value for its discriminant type
(int, unsigned, bool or enum — spec §3 "a discriminant TypeExpr (integer or
enum)"). -/
def discOk (disc : TypeExpr) (d : Int) : Bool :=
  match disc with
  | .tint => decide (-2147483648 ≤ d ∧ d < 2147483648)
  | .tuint => decide (0 ≤ d ∧ d < 4294967296)
  | .tbool => decide (d = 0 ∨ d = 1)
  | .tenum variants =>
      decide (-2147483648 ≤ d ∧ d < 2147483648) && variants.any (fun p => p.2 == d)
  | _ => false

/-- Encode a union discriminant using its own type's rule (4 bytes). -/
def encDisc (disc : TypeExpr) (d : Int) : Option (List Nat) :=
  match disc with
  | .tint => some (i32be d)
  | .tuint => some (u32be d.toNat)
  | .tbool => some (u32be d.toNat)
  | .tenum _ => some (i32be d)
  | _ => none

/-- Decode a union discriminant using its own type's rule. -/
def decDisc (disc : TypeExpr) (s : List Nat) : Except XdrErr (Int × List Nat) :=
  match disc with
  | .tint => readI32 s
  | .tuint =>
    match readU32 s with
    | .error e => .error e
    | .ok (n, s) => .ok ((n : Int), s)
  | .tbool =>
    match readU32 s with
    | .error e => .error e
    | .ok (n, s) => if n < 2 then .ok ((n : Int), s) else .error .invalidDiscriminant
  | .tenum variants =>
    match readI32 s with
    | .error e => .error e
    | .ok (d, s) =>
      if variants.any (fun p => p.2 == d) then .ok (d, s) else .error .invalidDiscriminant
  | _ => .error .invalidDiscriminant

/-! ## Well-typed values, encoding and decoding

Modelled from the spec: the per-kind encode/decode generation rules of
§4.3 (the `Emitpack` logic of the crate's `spec` module together with the
`xdr-codec` runtime, neither among the repository's source files).  A fuel
argument makes the functions total in the presence of `tnamed` references,
which may be recursive; every recursive call spends one unit. -/

mutual

/-- `wellTyped fuel env ty v`: `v` is a value of shape `ty` within all
declared bounds, checkable within `fuel` steps. -/
def wellTyped (fuel : Nat) (env : Env) (ty : TypeExpr) (v : Value) : Bool :=
  match fuel, ty, v with
  | _ + 1, .tint, .vint i => decide (-2147483648 ≤ i ∧ i < 2147483648)
  | _ + 1, .tuint, .vuint n => decide (n < 4294967296)
  | _ + 1, .thyper, .vhyper i =>
      decide (-9223372036854775808 ≤ i ∧ i < 9223372036854775808)
  | _ + 1, .tuhyper, .vuhyper n => decide (n < 18446744073709551616)
  | _ + 1, .tfloat, .vfloat b => decide (b < 4294967296)
  | _ + 1, .tdouble, .vdouble b => decide (b < 18446744073709551616)
  | _ + 1, .tquadruple, .vquadruple b =>
      decide (b < 340282366920938463463374607431768211456)
  | _ + 1, .tbool, .vbool _ => true
  | _ + 1, .tvoid, .vvoid => true
  | _ + 1, .topaqueFixed n, .vbytes bs => decide (bs.length = n) && allBytes bs
  | _ + 1, .topaqueVar bound, .vbytes bs =>
      decide (bs.length < 4294967296) && boundOk bound bs.length && allBytes bs
  | _ + 1, .tstring bound, .vstring bs =>
      decide (bs.length < 4294967296) && boundOk bound bs.length && allBytes bs
  | fuel + 1, .tarrayFixed ety n, .varray vs =>
      decide (vs.length = n) && wellTypedElems fuel env ety vs
  | fuel + 1, .tarrayVar ety bound, .varray vs =>
      decide (vs.length < 4294967296) && boundOk bound vs.length &&
        wellTypedElems fuel env ety vs
  | fuel + 1, .toption rty, .voption o =>
      match o with
      | none => true
      | some v => wellTyped fuel env rty v
  | fuel + 1, .tstruct flds, .vstruct vs => wellTypedFields fuel env flds vs
  | _ + 1, .tenum variants, .venum i =>
      decide (-2147483648 ≤ i ∧ i < 2147483648) && variants.any (fun p => p.2 == i)
  | fuel + 1, .tunion disc cases dflt, .vunion d payload =>
      discOk disc d &&
        (match selectArm d cases dflt with
         | some aty => wellTyped fuel env aty payload
         | none => false)
  | fuel + 1, .tnamed nm, v =>
      match List.lookup nm env with
      | some ty => wellTyped fuel env ty v
      | none => false
  | _, _, _ => false

/-- Pointwise well-typedness of array elements. -/
def wellTypedElems (fuel : Nat) (env : Env) (ety : TypeExpr) (vs : List Value) : Bool :=
  match fuel, vs with
  | _ + 1, [] => true
  | fuel + 1, v :: vs => wellTyped fuel env ety v && wellTypedElems fuel env ety vs
  | 0, _ => false

/-- Pointwise well-typedness of struct field values. -/
def wellTypedFields (fuel : Nat) (env : Env) (flds : List (String × TypeExpr))
    (vs : List Value) : Bool :=
  match fuel, flds, vs with
  | _ + 1, [], [] => true
  | fuel + 1, f :: flds, v :: vs =>
      wellTyped fuel env f.2 v && wellTypedFields fuel env flds vs
  | _, _, _ => false

end

mutual

/-- XDR encoding of a value at a type (spec §4.3 per-kind rules). -/
def encode (fuel : Nat) (env : Env) (ty : TypeExpr) (v : Value) : Option (List Nat) :=
  match fuel, ty, v with
  | _ + 1, .tint, .vint i => some (i32be i)
  | _ + 1, .tuint, .vuint n => some (u32be n)
  | _ + 1, .thyper, .vhyper i => some (i64be i)
  | _ + 1, .tuhyper, .vuhyper n => some (u64be n)
  | _ + 1, .tfloat, .vfloat b => some (u32be b)
  | _ + 1, .tdouble, .vdouble b => some (u64be b)
  | _ + 1, .tquadruple, .vquadruple b => some (u128be b)
  | _ + 1, .tbool, .vbool b => some (u32be (if b then 1 else 0))
  | _ + 1, .tvoid, .vvoid => some []
  | _ + 1, .topaqueFixed _, .vbytes bs =>
      some (bs ++ List.replicate (padLen bs.length) 0)
  | _ + 1, .topaqueVar _, .vbytes bs =>
      some (u32be bs.length ++ bs ++ List.replicate (padLen bs.length) 0)
  | _ + 1, .tstring _, .vstring bs =>
      some (u32be bs.length ++ bs ++ List.replicate (padLen bs.length) 0)
  | fuel + 1, .tarrayFixed ety _, .varray vs => encodeElems fuel env ety vs
  | fuel + 1, .tarrayVar ety _, .varray vs =>
      match encodeElems fuel env ety vs with
      | some body => some (u32be vs.length ++ body)
      | none => none
  | fuel + 1, .toption rty, .voption o =>
      match o with
      | none => some (u32be 0)
      | some v =>
        match encode fuel env rty v with
        | some body => some (u32be 1 ++ body)
        | none => none
  | fuel + 1, .tstruct flds, .vstruct vs => encodeFields fuel env flds vs
  | _ + 1, .tenum _, .venum i => some (i32be i)
  | fuel + 1, .tunion disc cases dflt, .vunion d payload =>
      match encDisc disc d with
      | none => none
      | some db =>
        match selectArm d cases dflt with
        | none => none
        | some aty =>
          match encode fuel env aty payload with
          | some pb => some (db ++ pb)
          | none => none
  | fuel + 1, .tnamed nm, v =>
      match List.lookup nm env with
      | some ty => encode fuel env ty v
      | none => none
  | _, _, _ => none

/-- Encode the elements of an array, in order, with no length prefix. -/
def encodeElems (fuel : Nat) (env : Env) (ety : TypeExpr) (vs : List Value) :
    Option (List Nat) :=
  match fuel, vs with
  | _ + 1, [] => some []
  | fuel + 1, v :: vs =>
    match encode fuel env ety v, encodeElems fuel env ety vs with
    | some b, some bs => some (b ++ bs)
    | _, _ => none
  | 0, _ => none

/-- Encode struct field values in declaration order. -/
def encodeFields (fuel : Nat) (env : Env) (flds : List (String × TypeExpr))
    (vs : List Value) : Option (List Nat) :=
  match fuel, flds, vs with
  | _ + 1, [], [] => some []
  | fuel + 1, f :: flds, v :: vs =>
    match encode fuel env f.2 v, encodeFields fuel env flds vs with
    | some b, some bs => some (b ++ bs)
    | _, _ => none
  | _, _, _ => none

end

mutual

/-- XDR decoding of a value at a type from a byte stream, returning the
value and the unconsumed remainder (spec §4.3 per-kind rules). -/
def decode (fuel : Nat) (env : Env) (ty : TypeExpr) (s : List Nat) :
    Except XdrErr (Value × List Nat) :=
  match fuel, ty with
  | 0, _ => .error .outOfFuel
  | _ + 1, .tint =>
    match readI32 s with
    | .error e => .error e
    | .ok (i, s) => .ok (.vint i, s)
  | _ + 1, .tuint =>
    match readU32 s with
    | .error e => .error e
    | .ok (n, s) => .ok (.vuint n, s)
  | _ + 1, .thyper =>
    match readI64 s with
    | .error e => .error e
    | .ok (i, s) => .ok (.vhyper i, s)
  | _ + 1, .tuhyper =>
    match readU64 s with
    | .error e => .error e
    | .ok (n, s) => .ok (.vuhyper n, s)
  | _ + 1, .tfloat =>
    match readU32 s with
    | .error e => .error e
    | .ok (n, s) => .ok (.vfloat n, s)
  | _ + 1, .tdouble =>
    match readU64 s with
    | .error e => .error e
    | .ok (n, s) => .ok (.vdouble n, s)
  | _ + 1, .tquadruple =>
    match readU128 s with
    | .error e => .error e
    | .ok (n, s) => .ok (.vquadruple n, s)
  | _ + 1, .tbool =>
    match readU32 s with
    | .error e => .error e
    | .ok (n, s) =>
      if n = 0 then .ok (.vbool false, s)
      else if n = 1 then .ok (.vbool true, s)
      else .error .invalidDiscriminant
  | _ + 1, .tvoid => .ok (.vvoid, s)
  | _ + 1, .topaqueFixed n =>
    match readBytes n s with
    | .error e => .error e
    | .ok (bs, s) =>
      match readBytes (padLen n) s with
      | .error e => .error e
      | .ok (_, s) => .ok (.vbytes bs, s)
  | _ + 1, .topaqueVar bound =>
    match readU32 s with
    | .error e => .error e
    | .ok (len, s) =>
      if boundOk bound len then
        match readBytes len s with
        | .error e => .error e
        | .ok (bs, s) =>
          match readBytes (padLen len) s with
          | .error e => .error e
          | .ok (_, s) => .ok (.vbytes bs, s)
      else .error .bounds
  | _ + 1, .tstring bound =>
    match readU32 s with
    | .error e => .error e
    | .ok (len, s) =>
      if boundOk bound len then
        match readBytes len s with
        | .error e => .error e
        | .ok (bs, s) =>
          match readBytes (padLen len) s with
          | .error e => .error e
          | .ok (_, s) => .ok (.vstring bs, s)
      else .error .bounds
  | fuel + 1, .tarrayFixed ety n =>
    match decodeElems fuel env ety n s with
    | .error e => .error e
    | .ok (vs, s) => .ok (.varray vs, s)
  | fuel + 1, .tarrayVar ety bound =>
    match readU32 s with
    | .error e => .error e
    | .ok (len, s) =>
      if boundOk bound len then
        match decodeElems fuel env ety len s with
        | .error e => .error e
        | .ok (vs, s) => .ok (.varray vs, s)
      else .error .bounds
  | fuel + 1, .toption rty =>
    match readU32 s with
    | .error e => .error e
    | .ok (n, s) =>
      if n = 0 then .ok (.voption none, s)
      else if n = 1 then
        match decode fuel env rty s with
        | .error e => .error e
        | .ok (v, s) => .ok (.voption (some v), s)
      else .error .invalidDiscriminant
  | fuel + 1, .tstruct flds =>
    match decodeFields fuel env flds s with
    | .error e => .error e
    | .ok (vs, s) => .ok (.vstruct vs, s)
  | _ + 1, .tenum variants =>
    match readI32 s with
    | .error e => .error e
    | .ok (i, s) =>
      if variants.any (fun p => p.2 == i) then .ok (.venum i, s)
      else .error .invalidDiscriminant
  | fuel + 1, .tunion disc cases dflt =>
    match decDisc disc s with
    | .error e => .error e
    | .ok (d, s) =>
      match selectArm d cases dflt with
      | none => .error .invalidDiscriminant
      | some aty =>
        match decode fuel env aty s with
        | .error e => .error e
        | .ok (p, s) => .ok (.vunion d p, s)
  | fuel + 1, .tnamed nm =>
    match List.lookup nm env with
    | some ty => decode fuel env ty s
    | none => .error .unresolvedName

/-- Decode `count` consecutive array elements. -/
def decodeElems (fuel : Nat) (env : Env) (ety : TypeExpr) (count : Nat) (s : List Nat) :
    Except XdrErr (List Value × List Nat) :=
  match fuel, count with
  | _ + 1, 0 => .ok ([], s)
  | fuel + 1, count + 1 =>
    match decode fuel env ety s with
    | .error e => .error e
    | .ok (v, s) =>
      match decodeElems fuel env ety count s with
      | .error e => .error e
      | .ok (vs, s) => .ok (v :: vs, s)
  | 0, _ => .error .outOfFuel

/-- Decode struct field values in declaration order. -/
def decodeFields (fuel : Nat) (env : Env) (flds : List (String × TypeExpr))
    (s : List Nat) : Except XdrErr (List Value × List Nat) :=
  match fuel, flds with
  | _ + 1, [] => .ok ([], s)
  | fuel + 1, f :: flds =>
    match decode fuel env f.2 s with
    | .error e => .error e
    | .ok (v, s) =>
      match decodeFields fuel env flds s with
      | .error e => .error e
      | .ok (vs, s) => .ok (v :: vs, s)
  | 0, _ => .error .outOfFuel

end

theorem wellTyped_zero (env : Env) (ty : TypeExpr) (v : Value) :
    wellTyped 0 env ty v = false := by
  cases ty <;> cases v <;> rfl

theorem wellTypedElems_zero (env : Env) (ety : TypeExpr) (vs : List Value) :
    wellTypedElems 0 env ety vs = false := by
  cases vs <;> rfl

theorem wellTypedFields_zero (env : Env) (flds : List (String × TypeExpr))
    (vs : List Value) : wellTypedFields 0 env flds vs = false := by
  cases flds <;> cases vs <;> rfl

theorem discRoundtrip (disc : TypeExpr) (d : Int) (h : discOk disc d = true)
    (rest : List Nat) :
    ∃ db, encDisc disc d = some db ∧ decDisc disc (db ++ rest) = .ok (d, rest) := by
  cases disc <;> simp only [discOk, Bool.false_eq_true, Bool.and_eq_true,
    decide_eq_true_eq] at h
  case tint =>
    exact ⟨_, rfl, by simp [decDisc, readI32_i32be_append d h.1 h.2]⟩
  case tuint =>
    have hn : d.toNat < 4294967296 := by omega
    have hc : ((d.toNat : Nat) : Int) = d := by omega
    exact ⟨_, rfl, by simp [decDisc, readU32_u32be_append _ hn, hc]⟩
  case tbool =>
    have hn : d.toNat < 4294967296 := by omega
    have hc : ((d.toNat : Nat) : Int) = d := by omega
    have hlt : d.toNat < 2 := by omega
    exact ⟨_, rfl, by simp [decDisc, readU32_u32be_append _ hn, hc, hlt]⟩
  case tenum variants =>
    exact ⟨_, rfl, by simp [decDisc, readI32_i32be_append d h.1.1 h.1.2, h.2]⟩

set_option maxHeartbeats 3200000 in
theorem roundtripAux (fuel : Nat) :
    (∀ (env : Env) (ty : TypeExpr) (v : Value) (rest : List Nat),
      wellTyped fuel env ty v = true →
      ∃ bs, encode fuel env ty v = some bs ∧
        decode fuel env ty (bs ++ rest) = .ok (v, rest)) ∧
    (∀ (env : Env) (ety : TypeExpr) (vs : List Value) (rest : List Nat),
      wellTypedElems fuel env ety vs = true →
      ∃ bs, encodeElems fuel env ety vs = some bs ∧
        decodeElems fuel env ety vs.length (bs ++ rest) = .ok (vs, rest)) ∧
    (∀ (env : Env) (flds : List (String × TypeExpr)) (vs : List Value) (rest : List Nat),
      wellTypedFields fuel env flds vs = true →
      ∃ bs, encodeFields fuel env flds vs = some bs ∧
        decodeFields fuel env flds (bs ++ rest) = .ok (vs, rest)) := by
  induction fuel with
  | zero =>
    refine ⟨fun env ty v rest h => ?_, fun env ety vs rest h => ?_,
      fun env flds vs rest h => ?_⟩
    · rw [wellTyped_zero] at h; cases h
    · rw [wellTypedElems_zero] at h; cases h
    · rw [wellTypedFields_zero] at h; cases h
  | succ fuel ih =>
    obtain ⟨ihm, ihe, ihf⟩ := ih
    refine ⟨fun env ty v rest h => ?_, fun env ety vs rest h => ?_,
      fun env flds vs rest h => ?_⟩
    · cases ty with
      | tint =>
        cases v <;> simp only [wellTyped, Bool.false_eq_true, decide_eq_true_eq] at h
        case vint i =>
          exact ⟨i32be i, by simp [encode], by simp [decode, readI32_i32be_append i h.1 h.2]⟩
      | tuint =>
        cases v <;> simp only [wellTyped, Bool.false_eq_true, decide_eq_true_eq] at h
        case vuint n =>
          exact ⟨u32be n, by simp [encode], by simp [decode, readU32_u32be_append n h]⟩
      | thyper =>
        cases v <;> simp only [wellTyped, Bool.false_eq_true, decide_eq_true_eq] at h
        case vhyper i =>
          exact ⟨i64be i, by simp [encode], by simp [decode, readI64_i64be_append i h.1 h.2]⟩
      | tuhyper =>
        cases v <;> simp only [wellTyped, Bool.false_eq_true, decide_eq_true_eq] at h
        case vuhyper n =>
          exact ⟨u64be n, by simp [encode], by simp [decode, readU64_u64be_append n h]⟩
      | tfloat =>
        cases v <;> simp only [wellTyped, Bool.false_eq_true, decide_eq_true_eq] at h
        case vfloat b =>
          exact ⟨u32be b, by simp [encode], by simp [decode, readU32_u32be_append b h]⟩
      | tdouble =>
        cases v <;> simp only [wellTyped, Bool.false_eq_true, decide_eq_true_eq] at h
        case vdouble b =>
          exact ⟨u64be b, by simp [encode], by simp [decode, readU64_u64be_append b h]⟩
      | tquadruple =>
        cases v <;> simp only [wellTyped, Bool.false_eq_true, decide_eq_true_eq] at h
        case vquadruple b =>
          exact ⟨u128be b, by simp [encode], by simp [decode, readU128_u128be_append b h]⟩
      | tbool =>
        cases v <;> simp only [wellTyped, Bool.false_eq_true, decide_eq_true_eq] at h
        case vbool b =>
          cases b
          · exact ⟨u32be 0, by simp [encode],
              by simp [decode, readU32_u32be_append 0 (by norm_num)]⟩
          · exact ⟨u32be 1, by simp [encode],
              by simp [decode, readU32_u32be_append 1 (by norm_num)]⟩
      | tvoid =>
        cases v <;> simp only [wellTyped, Bool.false_eq_true] at h
        case vvoid => exact ⟨[], by simp [encode], by simp [decode]⟩
      | topaqueFixed n =>
        cases v <;> simp only [wellTyped, Bool.false_eq_true, Bool.and_eq_true,
          decide_eq_true_eq] at h
        case vbytes bs =>
          obtain ⟨h1, -⟩ := h
          subst h1
          have hd1 : readBytes bs.length
              (bs ++ (List.replicate (padLen bs.length) 0 ++ rest)) =
              .ok (bs, List.replicate (padLen bs.length) 0 ++ rest) :=
            readBytes_len_append _ _ _ rfl
          have hd2 : readBytes (padLen bs.length)
              (List.replicate (padLen bs.length) 0 ++ rest) =
              .ok (List.replicate (padLen bs.length) 0, rest) :=
            readBytes_len_append _ _ _ (List.length_replicate _ _)
          exact ⟨bs ++ List.replicate (padLen bs.length) 0, by simp [encode],
            by simp [decode, List.append_assoc, hd1, hd2]⟩
      | topaqueVar bound =>
        cases v <;> simp only [wellTyped, Bool.false_eq_true, Bool.and_eq_true,
          decide_eq_true_eq] at h
        case vbytes bs =>
          obtain ⟨⟨hlen, hb⟩, -⟩ := h
          have hd1 : readBytes bs.length
              (bs ++ (List.replicate (padLen bs.length) 0 ++ rest)) =
              .ok (bs, List.replicate (padLen bs.length) 0 ++ rest) :=
            readBytes_len_append _ _ _ rfl
          have hd2 : readBytes (padLen bs.length)
              (List.replicate (padLen bs.length) 0 ++ rest) =
              .ok (List.replicate (padLen bs.length) 0, rest) :=
            readBytes_len_append _ _ _ (List.length_replicate _ _)
          exact ⟨u32be bs.length ++ bs ++ List.replicate (padLen bs.length) 0,
            by simp [encode], by simp [decode, List.append_assoc,
              readU32_u32be_append bs.length hlen, hb, hd1, hd2]⟩
      | tstring bound =>
        cases v <;> simp only [wellTyped, Bool.false_eq_true, Bool.and_eq_true,
          decide_eq_true_eq] at h
        case vstring bs =>
          obtain ⟨⟨hlen, hb⟩, -⟩ := h
          have hd1 : readBytes bs.length
              (bs ++ (List.replicate (padLen bs.length) 0 ++ rest)) =
              .ok (bs, List.replicate (padLen bs.length) 0 ++ rest) :=
            readBytes_len_append _ _ _ rfl
          have hd2 : readBytes (padLen bs.length)
              (List.replicate (padLen bs.length) 0 ++ rest) =
              .ok (List.replicate (padLen bs.length) 0, rest) :=
            readBytes_len_append _ _ _ (List.length_replicate _ _)
          exact ⟨u32be bs.length ++ bs ++ List.replicate (padLen bs.length) 0,
            by simp [encode], by simp [decode, List.append_assoc,
              readU32_u32be_append bs.length hlen, hb, hd1, hd2]⟩
      | tarrayFixed ety n =>
        cases v <;> simp only [wellTyped, Bool.false_eq_true, Bool.and_eq_true,
          decide_eq_true_eq] at h
        case varray vs =>
          obtain ⟨h1, h2⟩ := h
          subst h1
          obtain ⟨bs, he, hd⟩ := ihe env ety vs rest h2
          exact ⟨bs, by simp [encode, he], by simp [decode, hd]⟩
      | tarrayVar ety bound =>
        cases v <;> simp only [wellTyped, Bool.false_eq_true, Bool.and_eq_true,
          decide_eq_true_eq] at h
        case varray vs =>
          obtain ⟨⟨hlen, hb⟩, h2⟩ := h
          obtain ⟨bs, he, hd⟩ := ihe env ety vs rest h2
          exact ⟨u32be vs.length ++ bs, by simp [encode, he],
            by simp [decode, List.append_assoc,
              readU32_u32be_append vs.length hlen, hb, hd]⟩
      | toption rty =>
        cases v <;> simp only [wellTyped, Bool.false_eq_true] at h
        case voption o =>
          cases o with
          | none =>
            exact ⟨u32be 0, by simp [encode],
              by simp [decode, readU32_u32be_append 0 (by norm_num)]⟩
          | some v =>
            obtain ⟨bs, he, hd⟩ := ihm env rty v rest h
            exact ⟨u32be 1 ++ bs, by simp [encode, he],
              by simp [decode, List.append_assoc,
                readU32_u32be_append 1 (by norm_num), hd]⟩
      | tstruct flds =>
        cases v <;> simp only [wellTyped, Bool.false_eq_true] at h
        case vstruct vs =>
          obtain ⟨bs, he, hd⟩ := ihf env flds vs rest h
          exact ⟨bs, by simp [encode, he], by simp [decode, hd]⟩
      | tenum variants =>
        cases v <;> simp only [wellTyped, Bool.false_eq_true, Bool.and_eq_true,
          decide_eq_true_eq] at h
        case venum i =>
          obtain ⟨hr, ha⟩ := h
          exact ⟨i32be i, by simp [encode],
            by simp [decode, readI32_i32be_append i hr.1 hr.2, ha]⟩
      | tunion disc cases_ dflt =>
        cases v <;> simp only [wellTyped, Bool.false_eq_true, Bool.and_eq_true] at h
        case vunion d payload =>
          obtain ⟨hdisc, harm⟩ := h
          cases hsel : selectArm d cases_ dflt with
          | none => rw [hsel] at harm; cases harm
          | some aty =>
            rw [hsel] at harm
            obtain ⟨pb, hpe, hpd⟩ := ihm env aty payload rest harm
            obtain ⟨db, hde, hdd⟩ := discRoundtrip disc d hdisc (pb ++ rest)
            exact ⟨db ++ pb, by simp [encode, hde, hsel, hpe],
              by simp [decode, List.append_assoc, hdd, hsel, hpd]⟩
      | tnamed nm =>
        simp only [wellTyped] at h
        cases hl : List.lookup nm env with
        | none => rw [hl] at h; cases h
        | some ty2 =>
          rw [hl] at h
          obtain ⟨bs, he, hd⟩ := ihm env ty2 v rest h
          exact ⟨bs, by simp [encode, hl, he], by simp [decode, hl, hd]⟩
    · cases vs with
      | nil => exact ⟨[], by simp [encodeElems], by simp [decodeElems]⟩
      | cons v vs =>
        simp only [wellTypedElems, Bool.and_eq_true] at h
        obtain ⟨bs, hse, hsd⟩ := ihe env ety vs rest h.2
        obtain ⟨b, hbe, hbd⟩ := ihm env ety v (bs ++ rest) h.1
        exact ⟨b ++ bs, by simp [encodeElems, hbe, hse],
          by simp [decodeElems, List.append_assoc, hbd, hsd]⟩
    · cases flds with
      | nil =>
        cases vs <;> simp only [wellTypedFields, Bool.false_eq_true] at h
        case nil => exact ⟨[], by simp [encodeFields], by simp [decodeFields]⟩
      | cons f flds =>
        cases vs <;> simp only [wellTypedFields, Bool.false_eq_true,
          Bool.and_eq_true] at h
        case cons v vs =>
          obtain ⟨bs, hse, hsd⟩ := ihf env flds vs rest h.2
          obtain ⟨b, hbe, hbd⟩ := ihm env f.2 v (bs ++ rest) h.1
          exact ⟨b ++ bs, by simp [encodeFields, hbe, hse],
            by simp [decodeFields, List.append_assoc, hbd, hsd]⟩

/-- C1: For every supported `TypeExpr` shape and representative values of it,
decoding the encoding of a well-typed, in-bounds value yields the original
value back, consuming exactly the encoded bytes: `decode(encode(v)) == v`. -/
theorem xdr_decode_encode_roundtrip (fuel : Nat) (env : Env) (ty : TypeExpr)
    (v : Value) (rest : List Nat) (h : wellTyped fuel env ty v = true) :
    ∃ bs, encode fuel env ty v = some bs ∧
      decode fuel env ty (bs ++ rest) = .ok (v, rest) :=
  (roundtripAux fuel).1 env ty v rest h

/-- A symbol table with a recursive linked-list type, for the round-trip
witness. -/
def sampleEnv : Env :=
  [("node", .tstruct [("val", .tint), ("next", .toption (.tnamed "node"))])]

/-- A type exercising every `TypeExpr` shape. -/
def sampleTy : TypeExpr :=
  .tstruct
    [("a", .tint),
     ("b", .tuhyper),
     ("c", .tstring (some 5)),
     ("d", .tarrayFixed .tbool 2),
     ("e", .tarrayVar .tuint (some 4)),
     ("f", .topaqueFixed 3),
     ("g", .topaqueVar none),
     ("h", .tenum [("A", 0), ("B", 5)]),
     ("i", .tunion .tint [([1, 2], "x", .tfloat)] (some ("y", .tvoid))),
     ("j", .tnamed "node"),
     ("k", .thyper),
     ("l", .tdouble),
     ("m", .tquadruple),
     ("n", .tvoid)]

/-- A representative well-typed value of `sampleTy`. -/
def sampleVal : Value :=
  .vstruct
    [.vint (-7),
     .vuhyper 18446744073709551615,
     .vstring [104, 105],
     .varray [.vbool true, .vbool false],
     .varray [.vuint 4294967295],
     .vbytes [1, 2, 3],
     .vbytes [9, 8, 7, 6, 5],
     .venum 5,
     .vunion 2 (.vfloat 1078530011),
     .vstruct [.vint 1, .voption (some (.vstruct [.vint 2, .voption none]))],
     .vhyper (-5000000000),
     .vdouble 4614256656552045848,
     .vquadruple 123456789012345678901234567890,
     .vvoid]

theorem xdr_decode_encode_roundtrip_witness :
    wellTyped 25 sampleEnv sampleTy sampleVal = true ∧
    ∃ bs, encode 25 sampleEnv sampleTy sampleVal = some bs ∧
      decode 25 sampleEnv sampleTy (bs ++ []) = .ok (sampleVal, []) :=
  ⟨by decide, xdr_decode_encode_roundtrip 25 sampleEnv sampleTy sampleVal [] (by decide)⟩

/-! ## The `xdrgen` library (`src/xdrgen/src/lib.rs`)

The code generator's assembly pipeline, embedded from the source.  The
`spec` module's parser and emitter (not among the repository's sources) are
abstracted: `generate` is parametric in the parse function and in the
per-declaration emit functions, exactly at the seams the source uses them. -/

/-- Substring containment on character lists, mirroring Rust's
`str::contains(&str)`: the pattern occurs contiguously anywhere. -/
def listContainsSub (hay pat : List Char) : Bool :=
  pat.isPrefixOf hay ||
    match hay with
    | [] => false
    | _ :: t => listContainsSub t pat

/-- `strContainsSub hay pat`: Rust's `hay.contains(pat)`. -/
def strContainsSub (hay pat : String) : Bool := listContainsSub hay.data pat.data

/-- Embeds `exclude_definition_line` (lib.rs lines 47-54): a generated line
is excluded when, for some excluded name `v`, it contains one of the texts
`"const v"`, `"struct v"`, `"enum v"`, `"for v"` as a substring. -/
def exclude_definition_line (line : String) (exclude_defs : List String) : Bool :=
  exclude_defs.foldl
    (fun acc v =>
      acc || strContainsSub line ("const " ++ v) || strContainsSub line ("struct " ++ v)
        || strContainsSub line ("enum " ++ v) || strContainsSub line ("for " ++ v))
    false

/-- The resolved symbol table as `generate` consumes it: constants carry a
value and an optional scope owner; typespecs and typesyns carry an opaque
type payload `κ` (the `spec` module's type AST). -/
structure Symtab (κ : Type) where
  constants : List (String × Int × Option String)
  typespecs : List (String × κ)
  typesyns : List (String × κ)

/-- The emit functions of the `spec` module (`define`, `pack`, `unpack`),
abstracted exactly as `generate` calls them.  `pack`/`unpack` may succeed
with no fragment (`Ok(None)`), as the source's `result_option` handling
shows. -/
structure Emitters (κ : Type) where
  defineConst : String → Int → Except String String
  defineTypespec : String → κ → Except String String
  defineTypesyn : String → κ → Except String String
  pack : String → κ → Except String (Option String)
  unpack : String → κ → Except String (Option String)

/-- Embeds `result_option` (lib.rs lines 39-45). -/
def result_option {T E : Type} : Except E (Option T) → Option (Except E T)
  | .ok none => none
  | .ok (some v) => some (.ok v)
  | .error e => some (.error e)

/-- Rust's `collect::<Result<Vec<_>>>()`: all successes in order, or the
first error. -/
def collectExcept {E A : Type} : List (Except E A) → Except E (List A)
  | [] => .ok []
  | x :: xs =>
    match x with
    | .error e => .error e
    | .ok a =>
      match collectExcept xs with
      | .error e => .error e
      | .ok rest => .ok (a :: rest)

/-- The `consts` fragment results of `generate` (lib.rs lines 83-92): only
constants with no scope are defined. -/
def constExceptList {κ : Type} (st : Symtab κ) (em : Emitters κ) :
    List (Except String String) :=
  (st.constants.filterMap fun c => if c.2.2.isNone then some (c.1, c.2.1) else none).map
    fun c => em.defineConst c.1 c.2

/-- The `typespecs` fragment results of `generate` (lib.rs lines 94-97). -/
def typespecExceptList {κ : Type} (st : Symtab κ) (em : Emitters κ) :
    List (Except String String) :=
  st.typespecs.map fun p => em.defineTypespec p.1 p.2

/-- The `typesyns` fragment results of `generate` (lib.rs lines 99-102). -/
def typesynExceptList {κ : Type} (st : Symtab κ) (em : Emitters κ) :
    List (Except String String) :=
  st.typesyns.map fun p => em.defineTypesyn p.1 p.2

/-- The `packers` fragment results of `generate` (lib.rs lines 104-107). -/
def packerExceptList {κ : Type} (st : Symtab κ) (em : Emitters κ) :
    List (Except String String) :=
  st.typespecs.filterMap fun p => result_option (em.pack p.1 p.2)

/-- The `unpackers` fragment results of `generate` (lib.rs lines 109-112). -/
def unpackerExceptList {κ : Type} (st : Symtab κ) (em : Emitters κ) :
    List (Except String String) :=
  st.typespecs.filterMap fun p => result_option (em.unpack p.1 p.2)

/-- The chained `res` sequence of `generate` (lib.rs lines 114-119):
constants, then typespecs, then typesyns, then packers, then unpackers. -/
def resList {κ : Type} (st : Symtab κ) (em : Emitters κ) : List (Except String String) :=
  constExceptList st em ++ typespecExceptList st em ++ typesynExceptList st em ++
    packerExceptList st em ++ unpackerExceptList st em

/-- The header comment `generate` writes (lib.rs lines 122-132), with the
trailing newline `writeln!` adds. -/
def headerText (infile : String) : String :=
  "\n// GENERATED CODE\n//\n// Generated from " ++ infile ++
    " by xdrgen.\n//\n// DO NOT EDIT\n\n"

/-- The fragments that survive the exclusion filter of `generate`'s output
loop (lib.rs lines 134-139). -/
def keptLines (frags exclude_defs : List String) : List String :=
  frags.filter fun l => ! exclude_definition_line l exclude_defs

/-- Concatenation of a list of strings (a `TokenStream`'s text is the
concatenation of its collected fragments' texts). -/
def concatAll : List String → String
  | [] => ""
  | w :: ws => w ++ concatAll ws

/-- Perform a sequence of writes on a stream whose `i`-th write succeeds
when `wb i` is true; a failed write emits nothing and its error is ignored
by the caller (`let _ = writeln!(..)`). -/
def writeSeq (wb : Nat → Bool) : Nat → List String → String
  | _, [] => ""
  | i, w :: ws => (if wb i then w else "") ++ writeSeq wb (i + 1) ws

/-- Embeds `generate` (lib.rs lines 61-142): parse the specification, emit
every fragment collecting the first error, and only then write the header
and the non-excluded fragments (each `writeln!(output, "{}\n", line)`),
ignoring write errors.  Returns the call's result together with the bytes
written to the output stream. -/
def generateModel {κ : Type} (infile source : String)
    (parseSpec : String → Except String (Symtab κ)) (em : Emitters κ)
    (exclude_defs : List String) (wb : Nat → Bool) : Except String Unit × String :=
  match parseSpec source with
  | .error e => (.error ("parse error: " ++ e), "")
  | .ok st =>
    match collectExcept (resList st em) with
    | .error e => (.error e, "")
    | .ok frags =>
      (.ok (), writeSeq wb 0
        (headerText infile :: (keptLines frags exclude_defs).map fun l => l ++ "\n\n"))

/-- A parsed file of the target language, as `syn::File` exposes it to this
crate: top-level attributes and items (lib.rs lines 210-211 touch exactly
these two lists). -/
structure SynFile where
  attrs : List String
  items : List String
  deriving DecidableEq, Repr

/-- Embeds `filter_exlude` (lib.rs lines 159-163): keep an entry unless its
name is exactly an element of `exclude_defs`. -/
def filter_exlude (exclude_defs : List String) (name : String) : Bool :=
  ! exclude_defs.contains name

/-- The `consts` fragment results of `generate_pretty` (lib.rs lines
165-175): exclusion filter first, then the scope-is-none filter. -/
def prettyConstList {κ : Type} (st : Symtab κ) (em : Emitters κ)
    (exclude_defs : List String) : List (Except String String) :=
  (((st.constants.filter fun c => filter_exlude exclude_defs c.1).filterMap
    fun c => if c.2.2.isNone then some (c.1, c.2.1) else none).map
    fun c => em.defineConst c.1 c.2)

/-- The filtered `typespecs` list of `generate_pretty` (lib.rs lines
177-181), from which defines, packers and unpackers all derive. -/
def prettyTypespecs {κ : Type} (st : Symtab κ) (exclude_defs : List String) :
    List (String × κ) :=
  st.typespecs.filter fun p => filter_exlude exclude_defs p.1

/-- The `typedefines` results of `generate_pretty` (lib.rs lines 183-185). -/
def prettyTypedefineList {κ : Type} (st : Symtab κ) (em : Emitters κ)
    (exclude_defs : List String) : List (Except String String) :=
  (prettyTypespecs st exclude_defs).map fun p => em.defineTypespec p.1 p.2

/-- The `typesyns` results of `generate_pretty` (lib.rs lines 187-191). -/
def prettyTypesynList {κ : Type} (st : Symtab κ) (em : Emitters κ)
    (exclude_defs : List String) : List (Except String String) :=
  ((st.typesyns.filter fun p => filter_exlude exclude_defs p.1).map
    fun p => em.defineTypesyn p.1 p.2)

/-- The `packers` results of `generate_pretty` (lib.rs lines 193-195). -/
def prettyPackerList {κ : Type} (st : Symtab κ) (em : Emitters κ)
    (exclude_defs : List String) : List (Except String String) :=
  (prettyTypespecs st exclude_defs).filterMap fun p => result_option (em.pack p.1 p.2)

/-- The `unpackers` results of `generate_pretty` (lib.rs lines 197-199). -/
def prettyUnpackerList {κ : Type} (st : Symtab κ) (em : Emitters κ)
    (exclude_defs : List String) : List (Except String String) :=
  (prettyTypespecs st exclude_defs).filterMap fun p => result_option (em.unpack p.1 p.2)

/-- The chained fragment sequence of `generate_pretty` (lib.rs lines
201-206), in the same order as `generate`'s. -/
def prettyResList {κ : Type} (st : Symtab κ) (em : Emitters κ)
    (exclude_defs : List String) : List (Except String String) :=
  prettyConstList st em exclude_defs ++ prettyTypedefineList st em exclude_defs ++
    prettyTypesynList st em exclude_defs ++ prettyPackerList st em exclude_defs ++
    prettyUnpackerList st em exclude_defs

/-- Embeds `generate_pretty` (lib.rs lines 149-214) up to the final
pretty-printing: parse the header (`syn::parse_file`), parse the
specification, emit the filtered fragments collecting the first error,
re-parse the assembled stream (`syn::parse2`), and merge the body's
attributes and items after the header's.  `parseFile` and `parse2` are the
external syntax-checking collaborators. -/
def generatePrettyModel {κ : Type} (input header : String)
    (parseFile : String → Except String SynFile)
    (parseSpec : String → Except String (Symtab κ)) (em : Emitters κ)
    (parse2 : String → Except String SynFile)
    (exclude_defs : List String) : Except String SynFile :=
  match parseFile header with
  | .error e => .error e
  | .ok file =>
    match parseSpec input with
    | .error e => .error ("parse error: " ++ e)
    | .ok st =>
      match collectExcept (prettyResList st em exclude_defs) with
      | .error e => .error e
      | .ok frags =>
        match parse2 (concatAll frags) with
        | .error e => .error e
        | .ok body => .ok ⟨file.attrs ++ body.attrs, file.items ++ body.items⟩

/-- The string `generate_pretty` returns on success: the merged file handed
to the external pretty-printer (`prettyplease::unparse`, lib.rs line 213). -/
def generatePrettyStr {κ : Type} (unparse : SynFile → String) (input header : String)
    (parseFile : String → Except String SynFile)
    (parseSpec : String → Except String (Symtab κ)) (em : Emitters κ)
    (parse2 : String → Except String SynFile)
    (exclude_defs : List String) : Except String String :=
  match generatePrettyModel input header parseFile parseSpec em parse2 exclude_defs with
  | .error e => .error e
  | .ok file => .ok (unparse file)

theorem isPrefixOf_append_self (p b : List Char) : p.isPrefixOf (p ++ b) = true := by
  induction p with
  | nil => simp [List.isPrefixOf]
  | cons c p ih => simp [List.isPrefixOf, ih]

theorem listContainsSub_iff (pat : List Char) : ∀ hay : List Char,
    listContainsSub hay pat = true ↔ pat <:+: hay := by
  intro hay
  induction hay with
  | nil =>
    rw [listContainsSub]
    simp only [Bool.or_eq_true, List.isPrefixOf_iff_prefix]
    constructor
    · rintro (hp | hf)
      · exact hp.isInfix
      · cases hf
    · rintro ⟨s, t2, hst⟩
      have hp : pat = [] := by
        have := congrArg List.length hst
        simp at this
        exact this.2.1
      subst hp
      exact Or.inl List.nil_prefix
  | cons c t ih =>
    rw [listContainsSub]
    simp only [Bool.or_eq_true, List.isPrefixOf_iff_prefix, ih]
    constructor
    · rintro (hp | hi)
      · exact hp.isInfix
      · exact List.infix_cons hi
    · rintro ⟨s, t2, hst⟩
      cases s with
      | nil =>
        simp only [List.nil_append] at hst
        exact Or.inl ⟨t2, hst⟩
      | cons a s =>
        right
        simp only [List.cons_append] at hst
        exact ⟨s, t2, by injection hst⟩

theorem foldl_or_any {α : Type} (f : α → Bool) : ∀ (ds : List α) (acc : Bool),
    List.foldl (fun acc v => acc || f v) acc ds = (acc || ds.any f) := by
  intro ds
  induction ds with
  | nil => intro acc; simp
  | cons d ds ih => intro acc; simp [ih, Bool.or_assoc]

theorem exclude_definition_line_eq_any (l : String) (ds : List String) :
    exclude_definition_line l ds
    = ds.any (fun v => strContainsSub l ("const " ++ v) || strContainsSub l ("struct " ++ v)
        || strContainsSub l ("enum " ++ v) || strContainsSub l ("for " ++ v)) := by
  have hfun : (fun (acc : Bool) (v : String) =>
      acc || strContainsSub l ("const " ++ v) || strContainsSub l ("struct " ++ v)
        || strContainsSub l ("enum " ++ v) || strContainsSub l ("for " ++ v))
    = (fun (acc : Bool) (v : String) =>
      acc || (strContainsSub l ("const " ++ v) || strContainsSub l ("struct " ++ v)
        || strContainsSub l ("enum " ++ v) || strContainsSub l ("for " ++ v))) := by
    funext acc v
    cases acc <;> simp [Bool.or_assoc]
  rw [exclude_definition_line, hfun, foldl_or_any]
  simp

theorem collectExcept_append {E A : Type} (a b : List (Except E A)) (ys : List A)
    (hb : collectExcept b = .ok ys) :
    ∀ xs, collectExcept a = .ok xs → collectExcept (a ++ b) = .ok (xs ++ ys) := by
  induction a with
  | nil =>
    intro xs ha
    simp only [collectExcept] at ha
    injection ha with h
    subst h
    simpa using hb
  | cons x a ih =>
    intro xs ha
    cases x with
    | error e =>
      simp only [collectExcept] at ha
      simp at ha
    | ok v =>
      simp only [collectExcept] at ha
      cases hc : collectExcept a with
      | error e => rw [hc] at ha; simp at ha
      | ok rest =>
        rw [hc] at ha
        simp only at ha
        injection ha with h
        subst h
        simp only [List.cons_append, collectExcept, List.append_eq, ih rest hc]

theorem writeSeq_all : ∀ (ws : List String) (i : Nat),
    writeSeq (fun _ => true) i ws = concatAll ws := by
  intro ws
  induction ws with
  | nil => intro i; rfl
  | cons w ws ih => intro i; simp [writeSeq, concatAll, ih]

/-- A two-definition specification: `struct Foo` and the unrelated
`enum FooBar`, with the texts their `define` emissions produce. -/
def fooSymtab : Symtab String :=
  { constants := []
    typespecs := [("Foo", "pub struct Foo \x7b pub a: i32, \x7d"),
                  ("FooBar", "pub enum FooBar \x7b A = 1, \x7d")]
    typesyns := [] }

/-- Concrete emit functions whose output texts have the shapes the real
emitter produces (`const`/`struct`/`enum` declarations and `impl .. for ..`
blocks). -/
def textEmitters : Emitters String :=
  { defineConst := fun n v => .ok ("pub const " ++ n ++ ": i64 = " ++ toString v ++ ";")
    defineTypespec := fun _ t => .ok t
    defineTypesyn := fun n _ => .ok ("pub type " ++ n ++ " = i32;")
    pack := fun n _ => .ok (some ("impl Pack for " ++ n ++ " ..."))
    unpack := fun n _ => .ok (some ("impl Unpack for " ++ n ++ " ...")) }

/-- C2 counterexample: on a specification defining `struct Foo` and the
unrelated `enum FooBar`, excluding `Foo` drops FooBar's generated block as
well — the whole output is just the header — because the line test is
substring containment and `"pub enum FooBar ..."` contains `"enum Foo"`. -/
theorem exclude_foo_also_drops_foobar :
    (generateModel "simple.x" "" (fun _ => .ok fooSymtab) textEmitters ["Foo"]
      (fun _ => true)).2 = headerText "simple.x" ∧
    exclude_definition_line "pub enum FooBar \x7b A = 1, \x7d" ["Foo"] = true := by
  constructor
  · decide
  · decide

/-- C2 (amended): an emitted fragment is dropped exactly when its generated
text contains, as a substring, one of the four texts `"const v"`,
`"struct v"`, `"enum v"`, `"for v"` for some excluded name `v` — whether or
not that occurrence is a declaration of `v` itself.  In particular,
excluding `Foo` from a specification defining `struct Foo` and the
unrelated `enum FooBar` drops both blocks. -/
theorem exclude_definition_line_substring_semantics (line : String) (ds : List String) :
    (exclude_definition_line line ds = true ↔
      ∃ v ∈ ds,
        ("const " ++ v).data <:+: line.data ∨ ("struct " ++ v).data <:+: line.data ∨
        ("enum " ++ v).data <:+: line.data ∨ ("for " ++ v).data <:+: line.data) ∧
    keptLines ["pub struct Foo \x7b pub a: i32, \x7d",
      "pub enum FooBar \x7b A = 1, \x7d"] ["Foo"] = [] := by
  constructor
  · simp only [exclude_definition_line_eq_any, List.any_eq_true, Bool.or_eq_true,
      strContainsSub, listContainsSub_iff]
    constructor
    · rintro ⟨v, hv, hc⟩
      exact ⟨v, hv, by tauto⟩
    · rintro ⟨v, hv, hc⟩
      exact ⟨v, hv, by tauto⟩
  · decide

/-- C3: `generate` either succeeds completely or produces nothing.  A parse
failure returns an error whose text contains "parse error", with no bytes
written; an emission failure returns that first error, still before the
header or any fragment has been written. -/
theorem generate_all_or_nothing :
    (∀ (κ : Type) (infile source : String) (pS : String → Except String (Symtab κ))
        (em : Emitters κ) (ds : List String) (wb : Nat → Bool) (e : String),
      pS source = .error e →
      generateModel infile source pS em ds wb = (.error ("parse error: " ++ e), "") ∧
        strContainsSub ("parse error: " ++ e) "parse error" = true) ∧
    (∀ (κ : Type) (infile source : String) (pS : String → Except String (Symtab κ))
        (em : Emitters κ) (ds : List String) (wb : Nat → Bool) (st : Symtab κ)
        (e : String),
      pS source = .ok st → collectExcept (resList st em) = .error e →
      generateModel infile source pS em ds wb = (.error e, "")) := by
  constructor
  · intro κ infile source pS em ds wb e hp
    refine ⟨by simp [generateModel, hp], ?_⟩
    have hlit : "parse error".data ++ ": ".data = "parse error: ".data := by decide
    rw [strContainsSub]
    refine (listContainsSub_iff _ _).mpr ⟨[], (": " ++ e).data, ?_⟩
    simp only [List.nil_append, String.data_append, ← List.append_assoc, hlit]
  · intro κ infile source pS em ds wb st e hp hc
    simp [generateModel, hp, hc]

theorem generate_all_or_nothing_witness :
    generateModel "f.x" "bad" (fun _ => (.error "syntax" : Except String (Symtab String)))
      textEmitters [] (fun _ => true) = (.error ("parse error: " ++ "syntax"), "") :=
  (generate_all_or_nothing.1 String "f.x" "bad"
    (fun _ => .error "syntax") textEmitters [] (fun _ => true) "syntax" rfl).1

/-- C4: the emitted fragments appear, in both `generate` and
`generate_pretty`, in the order: all constant definitions, then all type
structural definitions, then all type synonyms, then all encoders (pack),
then all decoders (unpack). -/
theorem emission_order :
    (∀ (κ : Type) (st : Symtab κ) (em : Emitters κ) (cs ts ss ps us : List String),
      collectExcept (constExceptList st em) = .ok cs →
      collectExcept (typespecExceptList st em) = .ok ts →
      collectExcept (typesynExceptList st em) = .ok ss →
      collectExcept (packerExceptList st em) = .ok ps →
      collectExcept (unpackerExceptList st em) = .ok us →
      collectExcept (resList st em) = .ok (cs ++ ts ++ ss ++ ps ++ us)) ∧
    (∀ (κ : Type) (st : Symtab κ) (em : Emitters κ) (ds : List String)
        (cs ts ss ps us : List String),
      collectExcept (prettyConstList st em ds) = .ok cs →
      collectExcept (prettyTypedefineList st em ds) = .ok ts →
      collectExcept (prettyTypesynList st em ds) = .ok ss →
      collectExcept (prettyPackerList st em ds) = .ok ps →
      collectExcept (prettyUnpackerList st em ds) = .ok us →
      collectExcept (prettyResList st em ds) = .ok (cs ++ ts ++ ss ++ ps ++ us)) := by
  constructor
  · intro κ st em cs ts ss ps us h1 h2 h3 h4 h5
    rw [resList]
    have h12 := collectExcept_append _ _ ts h2 cs h1
    have h123 := collectExcept_append _ _ ss h3 _ h12
    have h1234 := collectExcept_append _ _ ps h4 _ h123
    exact collectExcept_append _ _ us h5 _ h1234
  · intro κ st em ds cs ts ss ps us h1 h2 h3 h4 h5
    rw [prettyResList]
    have h12 := collectExcept_append _ _ ts h2 cs h1
    have h123 := collectExcept_append _ _ ss h3 _ h12
    have h1234 := collectExcept_append _ _ ps h4 _ h123
    exact collectExcept_append _ _ us h5 _ h1234

/-- A symbol table with a file-scope constant, a scoped case-label constant,
two typespecs and a typesyn. -/
def wSymtab : Symtab String :=
  { constants := [("N", 3, none), ("ONE", 1, some "u1")]
    typespecs := [("Foo", "pub struct Foo ..."), ("FooBar", "pub enum FooBar ...")]
    typesyns := [("Syn", "syn")] }

/-- The fragments `generate` collects for `wSymtab` with `textEmitters`. -/
def wFrags : List String :=
  ["pub const N: i64 = 3;",
   "pub struct Foo ...",
   "pub enum FooBar ...",
   "pub type Syn = i32;",
   "impl Pack for Foo ...",
   "impl Pack for FooBar ...",
   "impl Unpack for Foo ...",
   "impl Unpack for FooBar ..."]

theorem emission_order_witness :
    collectExcept (resList wSymtab textEmitters) = .ok wFrags :=
  emission_order.1 String wSymtab textEmitters _ _ _ _ _ rfl rfl rfl rfl rfl

/-- C5: `generate_pretty` re-parses the assembled fragments and merges them
with the parsed header; the whole run fails, returning no output string,
when the header or the assembled fragment stream is not syntactically valid
in the target language. -/
theorem generate_pretty_syntax_gate :
    (∀ (κ : Type) (unparse : SynFile → String) (input header : String)
        (parseFile : String → Except String SynFile)
        (pS : String → Except String (Symtab κ)) (em : Emitters κ)
        (parse2 : String → Except String SynFile) (ds : List String) (e : String),
      parseFile header = .error e →
      generatePrettyStr unparse input header parseFile pS em parse2 ds = .error e) ∧
    (∀ (κ : Type) (unparse : SynFile → String) (input header : String)
        (parseFile : String → Except String SynFile)
        (pS : String → Except String (Symtab κ)) (em : Emitters κ)
        (parse2 : String → Except String SynFile) (ds : List String)
        (f : SynFile) (st : Symtab κ) (frags : List String) (e : String),
      parseFile header = .ok f → pS input = .ok st →
      collectExcept (prettyResList st em ds) = .ok frags →
      parse2 (concatAll frags) = .error e →
      generatePrettyStr unparse input header parseFile pS em parse2 ds = .error e) := by
  constructor
  · intro κ unparse input header parseFile pS em parse2 ds e h
    simp [generatePrettyStr, generatePrettyModel, h]
  · intro κ unparse input header parseFile pS em parse2 ds f st frags e h1 h2 h3 h4
    simp [generatePrettyStr, generatePrettyModel, h1, h2, h3, h4]

theorem generate_pretty_syntax_gate_witness :
    generatePrettyStr (fun _ => "") "" "fn main(" (fun _ => .error "unexpected end")
      (fun _ => (.ok fooSymtab : Except String (Symtab String))) textEmitters
      (fun _ => .ok ⟨[], []⟩) [] = .error "unexpected end" :=
  generate_pretty_syntax_gate.1 String (fun _ => "") "" "fn main("
    (fun _ => .error "unexpected end") (fun _ => .ok fooSymtab) textEmitters
    (fun _ => .ok ⟨[], []⟩) [] "unexpected end" rfl

/-- C6: on a successful run with a writable output, `generate`'s output is
the header comment — which names the originating input file and carries the
DO NOT EDIT notice — followed by one block per non-excluded fragment, each
block terminated by a blank line. -/
theorem generate_output_layout (κ : Type) (infile source : String)
    (pS : String → Except String (Symtab κ)) (em : Emitters κ) (ds : List String)
    (st : Symtab κ) (frags : List String)
    (hp : pS source = .ok st) (hc : collectExcept (resList st em) = .ok frags) :
    (generateModel infile source pS em ds (fun _ => true)).2
      = headerText infile ++ concatAll ((keptLines frags ds).map fun l => l ++ "\n\n") ∧
    strContainsSub (headerText infile) infile = true ∧
    strContainsSub (headerText infile) "DO NOT EDIT" = true := by
  refine ⟨?_, ?_, ?_⟩
  · simp [generateModel, hp, hc, writeSeq, writeSeq_all]
  · rw [strContainsSub]
    refine (listContainsSub_iff _ _).mpr
      ⟨"\n// GENERATED CODE\n//\n// Generated from ".data,
       " by xdrgen.\n//\n// DO NOT EDIT\n\n".data, ?_⟩
    simp [headerText, String.data_append, List.append_assoc]
  · rw [strContainsSub]
    have hlit : " by xdrgen.\n//\n// ".data ++ ("DO NOT EDIT".data ++ "\n\n".data)
        = " by xdrgen.\n//\n// DO NOT EDIT\n\n".data := by decide
    refine (listContainsSub_iff _ _).mpr
      ⟨"\n// GENERATED CODE\n//\n// Generated from ".data ++ infile.data ++
        " by xdrgen.\n//\n// ".data, "\n\n".data, ?_⟩
    simp [headerText, String.data_append, List.append_assoc, hlit]

/-- The fragments `generate` collects for `fooSymtab` with `textEmitters`. -/
def fooFrags : List String :=
  ["pub struct Foo \x7b pub a: i32, \x7d",
   "pub enum FooBar \x7b A = 1, \x7d",
   "impl Pack for Foo ...",
   "impl Pack for FooBar ...",
   "impl Unpack for Foo ...",
   "impl Unpack for FooBar ..."]

theorem generate_output_layout_witness :
    (generateModel "w.x" "" (fun _ => .ok fooSymtab) textEmitters ["Foo"]
        (fun _ => true)).2
      = headerText "w.x" ++ concatAll ((keptLines fooFrags ["Foo"]).map fun l => l ++ "\n\n") ∧
    strContainsSub (headerText "w.x") "w.x" = true ∧
    strContainsSub (headerText "w.x") "DO NOT EDIT" = true :=
  generate_output_layout String "w.x" "" (fun _ => .ok fooSymtab) textEmitters ["Foo"]
    fooSymtab fooFrags rfl rfl

/-- C7: on a successful `generate_pretty` run, the merged file handed to the
pretty-printer has exactly the header's attributes and items first, unchanged,
followed by the generated body's. -/
theorem generate_pretty_header_first (κ : Type) (input header : String)
    (parseFile : String → Except String SynFile)
    (pS : String → Except String (Symtab κ)) (em : Emitters κ)
    (parse2 : String → Except String SynFile) (ds : List String)
    (f : SynFile) (st : Symtab κ) (frags : List String) (body : SynFile)
    (h1 : parseFile header = .ok f) (h2 : pS input = .ok st)
    (h3 : collectExcept (prettyResList st em ds) = .ok frags)
    (h4 : parse2 (concatAll frags) = .ok body) :
    generatePrettyModel input header parseFile pS em parse2 ds
      = .ok { attrs := f.attrs ++ body.attrs, items := f.items ++ body.items } := by
  simp [generatePrettyModel, h1, h2, h3, h4]

theorem generate_pretty_header_first_witness :
    generatePrettyModel "" "hdr" (fun _ => .ok ⟨["ha"], ["hi"]⟩)
      (fun _ => (.ok fooSymtab : Except String (Symtab String))) textEmitters
      (fun _ => .ok ⟨["ba"], ["bi"]⟩) []
      = .ok ⟨["ha", "ba"], ["hi", "bi"]⟩ :=
  generate_pretty_header_first String "" "hdr" (fun _ => .ok ⟨["ha"], ["hi"]⟩)
    (fun _ => .ok fooSymtab) textEmitters (fun _ => .ok ⟨["ba"], ["bi"]⟩) []
    ⟨["ha"], ["hi"]⟩ fooSymtab _ ⟨["ba"], ["bi"]⟩ rfl rfl rfl rfl

theorem filterMap_if_isNone (l : List (String × Int × Option String)) :
    (l.filterMap fun c => if c.2.2.isNone then some (c.1, c.2.1) else none)
      = (l.filter fun c => c.2.2.isNone).map fun c => (c.1, c.2.1) := by
  induction l with
  | nil => rfl
  | cons c l ih =>
    rw [List.filterMap_cons, List.filter_cons, ih]
    cases hsc : c.2.2 <;> simp [hsc]

/-- C8: in both paths, a top-level named constant definition is emitted only
for constants whose scope is `None`: the inputs handed to `defineConst` are
exactly the scope-`None` constants (after, in the pretty path, the exclusion
filter), so a scoped case-label constant never yields its own top-level
constant. -/
theorem constants_scope_none_only (κ : Type) (st : Symtab κ) (em : Emitters κ)
    (ds : List String) :
    constExceptList st em
      = ((st.constants.filter fun c => c.2.2.isNone).map
          fun c => em.defineConst c.1 c.2.1) ∧
    prettyConstList st em ds
      = (((st.constants.filter fun c => filter_exlude ds c.1).filter
            fun c => c.2.2.isNone).map fun c => em.defineConst c.1 c.2.1) := by
  constructor
  · rw [constExceptList, filterMap_if_isNone, List.map_map]
    rfl
  · rw [prettyConstList, filterMap_if_isNone, List.map_map]
    rfl

theorem constants_scope_none_only_witness :
    constExceptList wSymtab textEmitters = [Except.ok "pub const N: i64 = 3;"] :=
  ((constants_scope_none_only String wSymtab textEmitters []).1).trans rfl

/-- C9: once parsing and emission have succeeded, `generate` returns `Ok(())`
whatever the outcome of the output writes: their errors are discarded. -/
theorem generate_ok_ignores_write_errors (κ : Type) (infile source : String)
    (pS : String → Except String (Symtab κ)) (em : Emitters κ) (ds : List String)
    (st : Symtab κ) (frags : List String)
    (hp : pS source = .ok st) (hc : collectExcept (resList st em) = .ok frags) :
    ∀ wb : Nat → Bool, (generateModel infile source pS em ds wb).1 = .ok () := by
  intro wb
  simp [generateModel, hp, hc]

theorem generate_ok_ignores_write_errors_witness :
    (generateModel "w.x" "" (fun _ => .ok fooSymtab) textEmitters []
      (fun _ => false)).1 = .ok () :=
  generate_ok_ignores_write_errors String "w.x" "" (fun _ => .ok fooSymtab)
    textEmitters [] fooSymtab fooFrags rfl rfl (fun _ => false)

/-- C10: pretty-path exclusion is exact full-name equality, applied
independently to constants, type definitions and type synonyms; an excluded
type definition also loses its encoder and decoder, since packers and
unpackers derive from the filtered typespec list. -/
theorem pretty_exclusion_exact_match (κ : Type) (st : Symtab κ) (em : Emitters κ)
    (ds : List String) :
    (∀ p : String × κ, p ∈ prettyTypespecs st ds ↔ p ∈ st.typespecs ∧ p.1 ∉ ds) ∧
    (∀ c : String × Int × Option String,
      c ∈ st.constants.filter (fun c => filter_exlude ds c.1) ↔
        c ∈ st.constants ∧ c.1 ∉ ds) ∧
    (∀ p : String × κ,
      p ∈ st.typesyns.filter (fun p => filter_exlude ds p.1) ↔
        p ∈ st.typesyns ∧ p.1 ∉ ds) ∧
    (prettyTypedefineList st em ds
      = (prettyTypespecs st ds).map fun p => em.defineTypespec p.1 p.2) ∧
    (prettyPackerList st em ds
      = (prettyTypespecs st ds).filterMap fun p => result_option (em.pack p.1 p.2)) ∧
    (prettyUnpackerList st em ds
      = (prettyTypespecs st ds).filterMap fun p => result_option (em.unpack p.1 p.2)) ∧
    (∀ nm, nm ∈ ds → ∀ pay : κ, (nm, pay) ∉ prettyTypespecs st ds) := by
  refine ⟨?_, ?_, ?_, rfl, rfl, rfl, ?_⟩
  · intro p
    simp [prettyTypespecs, List.mem_filter, filter_exlude]
  · intro c
    simp [List.mem_filter, filter_exlude]
  · intro p
    simp [List.mem_filter, filter_exlude]
  · intro nm hnm pay hmem
    have := (by simp [prettyTypespecs, List.mem_filter, filter_exlude] at hmem; exact hmem.2 :
      nm ∉ ds)
    exact this hnm

theorem pretty_exclusion_exact_match_witness :
    ("FooBar", "pub enum FooBar \x7b A = 1, \x7d") ∈ prettyTypespecs fooSymtab ["Foo"] ∧
    ("Foo", "pub struct Foo \x7b pub a: i32, \x7d") ∉ prettyTypespecs fooSymtab ["Foo"] :=
  ⟨((pretty_exclusion_exact_match String fooSymtab textEmitters ["Foo"]).1 _).mpr
      ⟨by decide, by decide⟩,
   fun h =>
    (((pretty_exclusion_exact_match String fooSymtab textEmitters ["Foo"]).1 _).mp h).2
      (by decide)⟩

end XdrGen
